import Mathlib

/-!
Verification of the FlowCTRL execution engine specification against a
shallow embedding of the repository sources (flow_ctrl/src/core and
flow_ctrl/src/utils).  Text values are modelled as lists of characters,
mirroring the plain byte strings the Python code manipulates; shell
side effects are abstracted by an environment mapping each command
string to its observed result.
-/

namespace FlowCTRL

/-- Strings of the model: plain character lists. -/
abbrev Str := List Char

/-- Coercion helper from Lean string literals into model strings. -/
def str (s : String) : Str := s.toList

/-! ## Text utilities

The Python code relies on three builtin operations on text:
`content.split(",")`, `content.strip()` and `verb.lower()`.  They are
embedded here as executable functions on character lists with the same
semantics for the inputs the program produces. -/

/-- Embedding of the Python `s.split(",")`: splits at every comma,
keeping empty parts; the empty text splits to one empty field. -/
def splitOnComma : Str → List Str
  | [] => [[]]
  | c :: cs =>
    if c = ',' then [] :: splitOnComma cs
    else (c :: (splitOnComma cs).headD []) :: (splitOnComma cs).tail

/-- Inverse serialisation: joins fields with a comma between each pair,
embedding the Python `",".join(fields)`. -/
def joinComma : List Str → Str
  | [] => []
  | [f] => f
  | f :: rest => f ++ ',' :: joinComma rest

/-- Whitespace predicate used by the embedding of `str.strip`. -/
def isWS (c : Char) : Bool :=
  c = ' ' ∨ c = '\t' ∨ c = '\n' ∨ c = '\r'

/-- Embedding of the Python `s.strip()`: removes leading and trailing
whitespace. -/
def pyStrip (s : Str) : Str :=
  ((s.dropWhile isWS).reverse.dropWhile isWS).reverse

/-- Embedding of the Python `s.lower()` (ASCII case folding). -/
def lower (s : Str) : Str := s.map Char.toLower

/-! ## Command Runner (flow_ctrl/src/utils/shell.py)

`ShellExecutor.execute` spawns one shell process and blocks for its
result; `execute_with_timeout` runs it on a helper thread and joins with
a bound.  The observable result of a spawned command is abstracted by a
`ShellEnv`; the process operations actually performed are traced so the
absence of a kill on the timeout path is visible in the model. -/

/-- Result record of shell.CommandResult (stdout, stderr, exit_code). -/
structure ShellResult where
  stdout : Str
  stderr : Str
  exit_code : Int
deriving DecidableEq

/-- Abstraction of the operating system: the result each spawned shell
command is observed to produce. -/
abbrev ShellEnv := Str → ShellResult

/-- Process-level operations performed by the shell executor. -/
inductive ProcOp where
  | spawn : Str → ProcOp
  | kill : Str → ProcOp
deriving DecidableEq

/-- Embedding of ShellExecutor.execute: spawns the command and returns
its result together with the trace of process operations. -/
def shell_execute (env : ShellEnv) (command : Str) : ShellResult × List ProcOp :=
  (env command, [ProcOp.spawn command])

/-- Embedding of the shell.TimeoutResult dataclass defaults:
stdout empty, stderr Command timed out, exit code 124. -/
def timeout_result : ShellResult :=
  { stdout := [], stderr := str "Command timed out", exit_code := 124 }

/-- Embedding of ShellExecutor.execute_with_timeout.  The worker thread
spawns the command in both cases; `finishes_in_time` abstracts whether
the join returns before the timeout elapses.  On timeout the synthetic
`timeout_result` is returned and no further process operation is
performed, in particular no kill. -/
def execute_with_timeout (env : ShellEnv) (finishes_in_time : Bool)
    (command : Str) : ShellResult × List ProcOp :=
  let run := shell_execute env command
  if finishes_in_time then run else (timeout_result, run.2)

/-! ## Action Executor (flow_ctrl/src/core/action.py) -/

/-- Result record of action.CommandResult (success, stdout, stderr,
exit_code, execution_time).  Execution time is modelled in whole
units. -/
structure CommandResult where
  success : Bool
  stdout : Str
  stderr : Str
  exit_code : Int
  execution_time : Nat
deriving DecidableEq

/-- Static data of an Action as parsed from a sketch record: empty
command strings stand for unconfigured hook slots, exactly as in the
Python constructor defaults. -/
structure Action where
  name : Str
  command : Str
  setup_command : Str
  teardown_command : Str
  on_ok_command : Str
  on_nok_command : Str
  fatal_nok : Bool
  timeout : Option Nat
deriving DecidableEq

/-- Embedding of Action._execute_command.  An empty command returns a
vacuous success immediately without touching the shell; otherwise the
command is run through `execute_with_timeout` when a timeout is
configured and through plain `shell_execute` otherwise, and the result
is wrapped with success defined as exit code zero.  `finishes` abstracts
which commands complete within the configured timeout; `elapsed` is the
measured wall time of a real execution. -/
def Action.execute_command (env : ShellEnv) (finishes : Str → Bool)
    (a : Action) (elapsed : Nat) (command : Str) : CommandResult × List ProcOp :=
  if command = [] then (⟨true, [], [], 0, 0⟩, [])
  else
    let run :=
      match a.timeout with
      | some _ => execute_with_timeout env (finishes command) command
      | none => shell_execute env command
    (⟨decide (run.1.exit_code = 0), run.1.stdout, run.1.stderr,
      run.1.exit_code, elapsed⟩, run.2)

/-- Embedding of Action.execute: optional setup, then main, then exactly
one of on-ok or on-nok depending on the success of main, then optional
teardown; the returned boolean is the success of the main command.  The
second component traces the hook slots actually dispatched, each with
the command it ran. -/
def Action.execute (env : ShellEnv) (finishes : Str → Bool) (a : Action) :
    Bool × List (Str × Str) :=
  let setup_trace :=
    if a.setup_command ≠ [] then [(str "setup", a.setup_command)] else []
  let main := (Action.execute_command env finishes a 0 a.command).1
  let follow_trace :=
    if main.success ∧ a.on_ok_command ≠ [] then [(str "on-ok", a.on_ok_command)]
    else if ¬main.success ∧ a.on_nok_command ≠ [] then [(str "on-nok", a.on_nok_command)]
    else []
  let teardown_trace :=
    if a.teardown_command ≠ [] then [(str "teardown", a.teardown_command)] else []
  (main.success, setup_trace ++ [(str "main", a.command)] ++ follow_trace ++ teardown_trace)

/-! ## State Channel (flow_ctrl/src/utils/state_manager.py)

The channel is one shared plaintext file holding a single record of
five comma separated fields.  The file is modelled as `Option Str`:
`none` when the file does not exist, `some content` otherwise. -/

/-- Content of the state file; `none` models a missing file. -/
abbrev FileContent := Option Str

/-- The empty five field record returned when the file is missing or
blank. -/
def empty_record : List Str := [[], [], [], [], []]

/-- Embedding of the padding loop of StateManager: extend the field
list with empty fields up to five, then keep only the first five. -/
def pad5 (fields : List Str) : List Str :=
  (fields ++ List.replicate (5 - fields.length) []).take 5

/-- Embedding of StateManager._read_state_record: a missing or empty
file yields the empty record; otherwise the stripped content is split
on commas and normalised to exactly five fields. -/
def read_state_record : FileContent → List Str
  | none => empty_record
  | some content =>
    if content = [] then empty_record
    else if pyStrip content = [] then empty_record
    else pad5 (splitOnComma (pyStrip content))

/-- Embedding of StateManager._write_state_record: normalise to five
fields, stamp the fresh timestamp `now` into field 4, join with
commas. -/
def write_state_record (now : Str) (record : List Str) : Str :=
  joinComma ((pad5 record).set 4 now)

/-- Embedding of StateManager.get_state: the channel is active when the
file exists and is non empty. -/
def get_state (file : FileContent) : Bool :=
  match file with
  | none => false
  | some content => decide (content ≠ [])

/-- Embedding of StateManager.get_state_field: none when inactive or
blank after stripping, otherwise the requested field of the split
content when the index is in range. -/
def get_state_field (file : FileContent) (idx : Nat) : Option Str :=
  if get_state file = false then none
  else
    match file with
    | none => none
    | some content =>
      let c := pyStrip content
      if c = [] then none else (splitOnComma c).get? idx

/-- Embedding of StateManager.set_state: deactivating clears the file
outright (the stop signal observers see); activating rebuilds the
record with the new verb in field 0, fields 1 to 3 carried over from
the prior content, and a fresh timestamp. -/
def set_state (now : Str) (file : FileContent) (active : Bool) (action : Str) :
    FileContent × Bool :=
  if active = false then (some [], true)
  else
    let cur := read_state_record file
    (some (write_state_record now
      [action, cur.getD 1 [], cur.getD 2 [], cur.getD 3 [], now]), true)

/-- Embedding of StateManager.update_state: reject an out of range
index without touching the file, otherwise rewrite the record with the
one field replaced (the timestamp is freshly stamped by the write). -/
def update_state (now : Str) (file : FileContent) (idx : Int) (value : Str) :
    FileContent × Bool :=
  let record := read_state_record file
  if idx < 0 ∨ (record.length : Int) ≤ idx then (file, false)
  else (some (write_state_record now (record.set idx.toNat value)), true)

/-- Embedding of StateManager.purge: the file is deleted outright. -/
def purge (_file : FileContent) : FileContent × Bool := (none, true)

/-! ## Transition validator (flow_ctrl/src/core/validator.py) -/

/-- Embedding of Validator._validate_start. -/
def validate_start (state : Bool) (previous : Str) : Bool :=
  if state = false ∧ previous = [] then true
  else decide (previous = str "purged" ∨ previous = [])

/-- Embedding of Validator._validate_stop, shared by pause. -/
def validate_stop (previous : Str) : Bool :=
  decide (previous = str "started" ∨ previous = str "resumed")

/-- Embedding of Validator._validate_resume. -/
def validate_resume (previous : Str) : Bool :=
  decide (previous = str "paused")

/-- Embedding of Validator.validate_state: dispatches on the requested
action, rejecting unknown actions. -/
def validate_state (state : Bool) (previous : Str) (action : Str) : Bool :=
  if action = str "start" then validate_start state previous
  else if action = str "stop" then validate_stop previous
  else if action = str "pause" then validate_stop previous
  else if action = str "resume" then validate_resume previous
  else false

/-- Transition table written down from the spec wording, for the
refinement comparison with `validate_state`: start from blank or
purged, pause and stop from started or resumed, resume from paused,
everything else rejected. -/
def allowed_transition (previous action : Str) : Prop :=
  (action = str "start" ∧ (previous = [] ∨ previous = str "purged")) ∨
  ((action = str "pause" ∨ action = str "stop") ∧
    (previous = str "started" ∨ previous = str "resumed")) ∨
  (action = str "resume" ∧ previous = str "paused")

instance (previous action : Str) : Decidable (allowed_transition previous action) := by
  unfold allowed_transition
  infer_instance

/-! ## State Watcher (flow_ctrl/src/utils/state_monitor.py) -/

/-- Callback keys the engine registers with the watcher. -/
def engine_callbacks : List Str := [str "pause", str "resume", str "stop"]

/-- Embedding of StateMonitor._check_state_changes for one poll tick:
given the registered callback keys, the current file and the last
observed snapshot, returns the key of the callback invoked on this tick
(if any) and the new snapshot.  A missing file is skipped; unchanged
content is skipped; empty content fires the stop callback; otherwise
the lowercased first field selects a callback directly or through the
imperative and past participle aliases. -/
def check_state_changes (registered : List Str) (file : FileContent)
    (last : Str) : Option Str × Str :=
  match file with
  | none => (none, last)
  | some content =>
    let current := pyStrip content
    if current = last then (none, last)
    else
      if current = [] then
        (if str "stop" ∈ registered then some (str "stop") else none, current)
      else
        let action := lower ((splitOnComma current).headD [])
        if action ∈ registered then (some action, current)
        else if (action = str "pause" ∨ action = str "paused") ∧
            str "pause" ∈ registered then (some (str "pause"), current)
        else if (action = str "resume" ∨ action = str "resumed") ∧
            str "resume" ∈ registered then (some (str "resume"), current)
        else if (action = str "stop" ∨ action = str "stopped") ∧
            str "stop" ∈ registered then (some (str "stop"), current)
        else (none, current)

/-- Dispatch table of one watcher tick on non empty changed content, as a
function of the lowercased first field; mirror of the if chain inside
`check_state_changes`, factored out so its value can be computed at concrete
verbs. -/
def dispatch_verb (registered : List Str) (v : Str) : Option Str :=
  if v ∈ registered then some v
  else if (v = str "pause" ∨ v = str "paused") ∧ str "pause" ∈ registered then
    some (str "pause")
  else if (v = str "resume" ∨ v = str "resumed") ∧ str "resume" ∈ registered then
    some (str "resume")
  else if (v = str "stop" ∨ v = str "stopped") ∧ str "stop" ∈ registered then
    some (str "stop")
  else none

/-! ## Stage Runner (flow_ctrl/src/core/stage.py) -/

/-- Stage execution statistics (stage.StageStats). -/
structure StageStats where
  total_actions : Nat
  completed_actions : Nat
  success_count : Nat
  failure_count : Nat
deriving DecidableEq

/-- Loop body of Stage.execute: each action is checkpointed into field
3 of the channel and executed; a failure bumps the failure counter and,
when the action is fatal, aborts the stage at once.  Returns the stage
result, the final statistics, the final file content and the names of
the actions that were executed. -/
def stage_execute_from (env : ShellEnv) (finishes : Str → Bool) (now : Str)
    (file : FileContent) (stats : StageStats) :
    List Action → Bool × StageStats × FileContent × List Str
  | [] => (decide (stats.failure_count = 0), stats, file, [])
  | a :: rest =>
    let file1 := (update_state now file 3 a.name).1
    if (Action.execute env finishes a).1 then
      let stats1 : StageStats :=
        ⟨stats.total_actions, stats.completed_actions + 1,
         stats.success_count + 1, stats.failure_count⟩
      let r := stage_execute_from env finishes now file1 stats1 rest
      (r.1, r.2.1, r.2.2.1, a.name :: r.2.2.2)
    else
      let stats1 : StageStats :=
        ⟨stats.total_actions, stats.completed_actions,
         stats.success_count, stats.failure_count + 1⟩
      if a.fatal_nok then (false, stats1, file1, [a.name])
      else
        let r := stage_execute_from env finishes now file1 stats1 rest
        (r.1, r.2.1, r.2.2.1, a.name :: r.2.2.2)

/-- Embedding of Stage.execute with fresh statistics. -/
def stage_execute (env : ShellEnv) (finishes : Str → Bool) (now : Str)
    (file : FileContent) (actions : List Action) :
    Bool × StageStats × FileContent × List Str :=
  stage_execute_from env finishes now file ⟨actions.length, 0, 0, 0⟩ actions

/-! ## Procedure Runner policy (flow_ctrl/src/core/procedure.py) -/

/-- Procedure level control fields: the continue flag, the failure cap
and the Procedure.failure_count attribute the cap consults. -/
structure ProcCtl where
  continue_on_failure : Bool
  max_failures : Int
  failure_count : Nat
deriving DecidableEq

/-- Embedding of Procedure._should_continue_on_failure: when the cap is
positive and the procedure failure counter has reached it, stop;
otherwise defer to the configured continue flag. -/
def should_continue_on_failure (p : ProcCtl) : Bool :=
  if 0 < p.max_failures ∧ p.max_failures ≤ (p.failure_count : Int) then false
  else p.continue_on_failure

/-- Procedure execution statistics (procedure.ProcedureStats). -/
structure ProcedureStats where
  total_stages : Nat
  completed_stages : Nat
  total_actions : Nat
  completed_actions : Nat
  success_count : Nat
  failure_count : Nat
deriving DecidableEq

/-- Outcome of running one stage inside Procedure.execute: it returned
true, returned false, or raised an exception out of the loop. -/
inductive StageOutcome where
  | ok
  | fail
  | raises
deriving DecidableEq

/-- Embedding of Procedure._cleanup: every procedure declared cleanup
command is executed in order regardless of individual results (their
failures are swallowed by _execute_cleanup_command), then the channel
is cleared through set_state false completed.  Returns the commands
executed and the resulting file. -/
def cleanup (now : Str) (cleanup_cmds : List Str) (file : FileContent) :
    List Str × FileContent :=
  (cleanup_cmds, (set_state now file false (str "completed")).1)

/-- Loop body of Procedure.execute over the outcomes of its stages.
Each stage is checkpointed into field 2 of the channel; a failure bumps
both the statistics counter and the Procedure.failure_count attribute;
when _should_continue_on_failure denies continuation the method returns
false at once, without reaching the cleanup phase.  An exception
propagates to the handler, which attempts cleanup before returning
false.  When the loop completes, cleanup runs and the result is the
absence of stage failures.  Returns the result, the cleanup commands
that were executed, the final file and the statistics. -/
def procedure_execute_loop (now : Str) (cont : Bool) (maxf : Int)
    (cleanup_cmds : List Str) (fc : Nat) (stats : ProcedureStats)
    (file : FileContent) :
    List (Str × StageOutcome) → Bool × List Str × FileContent × ProcedureStats
  | [] =>
    let c := cleanup now cleanup_cmds file
    (decide (stats.failure_count = 0), c.1, c.2, stats)
  | (name, outcome) :: rest =>
    let file1 := (update_state now file 2 name).1
    match outcome with
    | StageOutcome.raises =>
      let c := cleanup now cleanup_cmds file1
      (false, c.1, c.2, stats)
    | StageOutcome.ok =>
      let stats1 : ProcedureStats :=
        ⟨stats.total_stages, stats.completed_stages + 1, stats.total_actions,
         stats.completed_actions, stats.success_count + 1, stats.failure_count⟩
      procedure_execute_loop now cont maxf cleanup_cmds fc stats1 file1 rest
    | StageOutcome.fail =>
      let stats1 : ProcedureStats :=
        ⟨stats.total_stages, stats.completed_stages, stats.total_actions,
         stats.completed_actions, stats.success_count, stats.failure_count + 1⟩
      let fc1 := fc + 1
      if should_continue_on_failure ⟨cont, maxf, fc1⟩ = false then
        (false, [], file1, stats1)
      else procedure_execute_loop now cont maxf cleanup_cmds fc1 stats1 file1 rest

/-- Embedding of Procedure.execute: the failure counter is reset, then
the stage loop runs. -/
def procedure_execute (now : Str) (cont : Bool) (maxf : Int)
    (cleanup_cmds : List Str) (stats : ProcedureStats) (file : FileContent)
    (stages : List (Str × StageOutcome)) :
    Bool × List Str × FileContent × ProcedureStats :=
  procedure_execute_loop now cont maxf cleanup_cmds 0 stats file stages

/-! ## Engine controlled execution (flow_ctrl/src/core/engine.py) -/

/-- Embedding of FlowEngine._should_continue_on_action_failure: a fatal
action always stops the stage; otherwise the procedure level policy is
consulted. -/
def should_continue_on_action_failure (p : ProcCtl) (a : Action) : Bool :=
  if a.fatal_nok then false else should_continue_on_failure p

/-- Loop body of FlowEngine._execute_stage_with_control.  Before each
action the engine observes its execution_stopped flag, modelled by the
next entry of `stop_flags` (the watcher thread may set it at any
checkpoint); when observed set, the stage aborts at once.  Otherwise
the action is checkpointed into field 3 and executed; on failure the
stage aborts unless both the fatal flag and the procedure policy allow
continuing.  Note that the State Channel itself is never read at the
checkpoint. -/
def engine_stage_from (env : ShellEnv) (finishes : Str → Bool) (p : ProcCtl)
    (now : Str) (file : FileContent) (stop_flags : List Bool)
    (stats : StageStats) :
    List Action → Bool × StageStats × FileContent × List Str
  | [] => (decide (stats.failure_count = 0), stats, file, [])
  | a :: rest =>
    if stop_flags.headD false then (false, stats, file, [])
    else
      let file1 := (update_state now file 3 a.name).1
      if (Action.execute env finishes a).1 then
        let stats1 : StageStats :=
          ⟨stats.total_actions, stats.completed_actions + 1,
           stats.success_count + 1, stats.failure_count⟩
        let r := engine_stage_from env finishes p now file1 stop_flags.tail stats1 rest
        (r.1, r.2.1, r.2.2.1, a.name :: r.2.2.2)
      else
        let stats1 : StageStats :=
          ⟨stats.total_actions, stats.completed_actions,
           stats.success_count, stats.failure_count + 1⟩
        if should_continue_on_action_failure p a = false then
          (false, stats1, file1, [a.name])
        else
          let r := engine_stage_from env finishes p now file1 stop_flags.tail stats1 rest
          (r.1, r.2.1, r.2.2.1, a.name :: r.2.2.2)

/-- Embedding of FlowEngine._execute_stage_with_control with the stage
statistics reset on entry. -/
def engine_stage (env : ShellEnv) (finishes : Str → Bool) (p : ProcCtl)
    (now : Str) (file : FileContent) (stop_flags : List Bool)
    (actions : List Action) : Bool × StageStats × FileContent × List Str :=
  engine_stage_from env finishes p now file stop_flags
    ⟨actions.length, 0, 0, 0⟩ actions

/-- Loop body of FlowEngine._execute_with_control over the observed
results of its stages.  Before each stage the engine observes the
execution_stopped flag; a stage failure bumps only the statistics
failure counter of the procedure, while `p.failure_count` (the
attribute Procedure._should_continue_on_failure consults) is left
untouched, exactly as in the source.  After the loop the run succeeds
when no stage failed and no stop was observed. -/
def engine_execute_loop (p : ProcCtl) (stop_flags : List Bool)
    (stats : ProcedureStats) :
    List (Str × Bool) → Bool × ProcedureStats × List Str
  | [] => ((decide (stats.failure_count = 0) && !(stop_flags.headD false)), stats, [])
  | (name, ok) :: rest =>
    if stop_flags.headD false then (false, stats, [])
    else if ok then
      let stats1 : ProcedureStats :=
        ⟨stats.total_stages, stats.completed_stages + 1, stats.total_actions,
         stats.completed_actions, stats.success_count + 1, stats.failure_count⟩
      let r := engine_execute_loop p stop_flags.tail stats1 rest
      (r.1, r.2.1, name :: r.2.2)
    else
      let stats1 : ProcedureStats :=
        ⟨stats.total_stages, stats.completed_stages, stats.total_actions,
         stats.completed_actions, stats.success_count, stats.failure_count + 1⟩
      if should_continue_on_failure p = false then (false, stats1, [name])
      else
        let r := engine_execute_loop p stop_flags.tail stats1 rest
        (r.1, r.2.1, name :: r.2.2)

/-- Embedding of FlowEngine._execute_with_control with fresh procedure
statistics, as reset at the top of the method. -/
def engine_execute (p : ProcCtl) (stop_flags : List Bool)
    (stage_results : List (Str × Bool)) (totals : Nat × Nat) :
    Bool × ProcedureStats × List Str :=
  engine_execute_loop p stop_flags
    ⟨totals.1, 0, totals.2, 0, 0, 0⟩ stage_results

/-! ## Engine guarded control operations (flow_ctrl/src/core/engine.py)

Each public control operation first validates the requested transition
against the current channel content and mutates the channel only when
the validator allows it. -/

/-- Previous verb as the engine reads it: field 0 of the channel, empty
when absent. -/
def previous_action (file : FileContent) : Str :=
  (get_state_field file 0).getD []

/-- Embedding of the validation guard of FlowEngine.start_procedure:
on rejection the engine reports failure and leaves the channel alone;
on success the channel verb becomes started. -/
def start_procedure (now : Str) (file : FileContent) : Bool × FileContent :=
  if validate_state (get_state file) (previous_action file) (str "start") = false then
    (false, file)
  else (true, (set_state now file true (str "started")).1)

/-- Embedding of the validation guard of FlowEngine.pause_procedure. -/
def pause_procedure (now : Str) (file : FileContent) : Bool × FileContent :=
  if validate_state (get_state file) (previous_action file) (str "pause") = false then
    (false, file)
  else (true, (set_state now file true (str "paused")).1)

/-- Embedding of the validation guard of FlowEngine.resume_procedure. -/
def resume_procedure (now : Str) (file : FileContent) : Bool × FileContent :=
  if validate_state (get_state file) (previous_action file) (str "resume") = false then
    (false, file)
  else (true, (set_state now file true (str "resumed")).1)

/-- Embedding of the validation guard of FlowEngine.stop_procedure:
stopping clears the channel. -/
def stop_procedure (now : Str) (file : FileContent) : Bool × FileContent :=
  if validate_state (get_state file) (previous_action file) (str "stop") = false then
    (false, file)
  else (true, (set_state now file false (str "stopped")).1)

/-! ## Helper lemmas about the text utilities -/

theorem splitOnComma_ne_nil (s : Str) : splitOnComma s ≠ [] := by
  induction s with
  | nil => simp [splitOnComma]
  | cons c cs ih =>
    by_cases h : c = ','
    · simp [splitOnComma, h]
    · simp [splitOnComma, h]

theorem splitOnComma_no_comma (s : Str) (h : ∀ c ∈ s, c ≠ ',') :
    splitOnComma s = [s] := by
  induction s with
  | nil => rfl
  | cons c cs ih =>
    have hc : c ≠ ',' := h c (List.mem_cons_self c cs)
    have ih2 := ih (fun x hx => h x (List.mem_cons_of_mem c hx))
    simp [splitOnComma, hc, ih2]

theorem splitOnComma_append (f t : Str) (h : ∀ c ∈ f, c ≠ ',') :
    splitOnComma (f ++ ',' :: t) = f :: splitOnComma t := by
  induction f with
  | nil => simp [splitOnComma]
  | cons c cs ih =>
    have hc : c ≠ ',' := h c (List.mem_cons_self c cs)
    have ih2 := ih (fun x hx => h x (List.mem_cons_of_mem c hx))
    simp [splitOnComma, hc, ih2]

theorem splitOnComma_joinComma (L : List Str) (hne : L ≠ [])
    (h : ∀ f ∈ L, ∀ c ∈ f, c ≠ ',') : splitOnComma (joinComma L) = L := by
  induction L with
  | nil => exact absurd rfl hne
  | cons f rest ih =>
    cases rest with
    | nil =>
      have := splitOnComma_no_comma f (h f (List.mem_cons_self f []))
      simpa [joinComma] using this
    | cons g t =>
      have hj : joinComma (f :: g :: t) = f ++ ',' :: joinComma (g :: t) := rfl
      rw [hj, splitOnComma_append f (joinComma (g :: t)) (h f (List.mem_cons_self f (g :: t)))]
      have ih2 := ih (by simp) (fun x hx => h x (List.mem_cons_of_mem f hx))
      rw [ih2]

theorem mem_joinComma (L : List Str) (c : Char) (h : c ∈ joinComma L) :
    c = ',' ∨ ∃ f ∈ L, c ∈ f := by
  induction L with
  | nil => simp [joinComma] at h
  | cons f rest ih =>
    cases rest with
    | nil =>
      right
      exact ⟨f, List.mem_cons_self f [], by simpa [joinComma] using h⟩
    | cons g t =>
      have hj : joinComma (f :: g :: t) = f ++ ',' :: joinComma (g :: t) := rfl
      rw [hj] at h
      rcases List.mem_append.1 h with hf | hr
      · exact Or.inr ⟨f, List.mem_cons_self f (g :: t), hf⟩
      · rcases List.mem_cons.1 hr with hc | hrest
        · exact Or.inl hc
        · rcases ih hrest with hc | ⟨f2, hf2, hcf⟩
          · exact Or.inl hc
          · exact Or.inr ⟨f2, List.mem_cons_of_mem f hf2, hcf⟩

theorem joinComma_ne_nil (L : List Str) (h : 2 ≤ L.length) : joinComma L ≠ [] := by
  match L with
  | a :: b :: t =>
    have hj : joinComma (a :: b :: t) = a ++ ',' :: joinComma (b :: t) := rfl
    rw [hj]
    cases a <;> simp

theorem dropWhile_eq_self_of_none (p : Char → Bool) (s : Str)
    (h : ∀ c ∈ s, p c = false) : s.dropWhile p = s := by
  cases s with
  | nil => rfl
  | cons c cs => simp [List.dropWhile_cons, h c (List.mem_cons_self c cs)]

theorem pyStrip_eq_self (s : Str) (h : ∀ c ∈ s, isWS c = false) : pyStrip s = s := by
  unfold pyStrip
  rw [dropWhile_eq_self_of_none isWS s h,
    dropWhile_eq_self_of_none isWS s.reverse (fun c hc => h c (List.mem_reverse.1 hc)),
    List.reverse_reverse]

theorem mem_pyStrip (s : Str) (c : Char) (h : c ∈ pyStrip s) : c ∈ s := by
  unfold pyStrip at h
  have h1 := List.mem_reverse.1 h
  have h2 := (List.dropWhile_sublist isWS).subset h1
  have h3 := List.mem_reverse.1 h2
  exact (List.dropWhile_sublist isWS).subset h3

theorem splitOnComma_mem (s : Str) :
    ∀ f ∈ splitOnComma s, ∀ c ∈ f, c ∈ s ∧ c ≠ ',' := by
  induction s with
  | nil =>
    intro f hf c hc
    simp [splitOnComma] at hf
    subst hf
    simp at hc
  | cons a cs ih =>
    intro f hf c hc
    by_cases ha : a = ','
    · rw [splitOnComma, if_pos ha] at hf
      rcases List.mem_cons.1 hf with h1 | h2
      · subst h1; simp at hc
      · have := ih f h2 c hc
        exact ⟨List.mem_cons_of_mem a this.1, this.2⟩
    · rw [splitOnComma, if_neg ha] at hf
      rcases List.mem_cons.1 hf with h1 | h2
      · subst h1
        rcases List.mem_cons.1 hc with h3 | h4
        · subst h3; exact ⟨List.mem_cons_self c cs, ha⟩
        · have hhead : (splitOnComma cs).headD [] ∈ splitOnComma cs := by
            cases hsc : splitOnComma cs with
            | nil => exact absurd hsc (splitOnComma_ne_nil cs)
            | cons x xs => simp
          have := ih _ hhead c h4
          exact ⟨List.mem_cons_of_mem a this.1, this.2⟩
      · have htail : f ∈ splitOnComma cs := (List.tail_sublist _).subset h2
        have := ih f htail c hc
        exact ⟨List.mem_cons_of_mem a this.1, this.2⟩

theorem pad5_length (l : List Str) : (pad5 l).length = 5 := by
  simp [pad5]
  omega

theorem pad5_eq_self (l : List Str) (h : l.length = 5) : pad5 l = l := by
  simp [pad5, h]

theorem pad5_mem (l : List Str) (f : Str) (h : f ∈ pad5 l) : f ∈ l ∨ f = [] := by
  unfold pad5 at h
  have h2 := (List.take_sublist 5 _).subset h
  rcases List.mem_append.1 h2 with h3 | h4
  · exact Or.inl h3
  · exact Or.inr (List.eq_of_mem_replicate h4)

theorem read_state_record_length (file : FileContent) :
    (read_state_record file).length = 5 := by
  cases file with
  | none => rfl
  | some content =>
    unfold read_state_record
    by_cases h1 : content = []
    · simp [h1, empty_record]
    · by_cases h2 : pyStrip content = []
      · simp [h1, h2, empty_record]
      · simp [h1, h2, pad5_length]

theorem read_state_record_clean (file : FileContent)
    (hw : ∀ c ∈ file.getD [], isWS c = false) :
    ∀ f ∈ read_state_record file, ∀ c ∈ f, c ≠ ',' ∧ isWS c = false := by
  cases file with
  | none =>
    intro f hf c hc
    simp [read_state_record, empty_record] at hf
    subst hf
    simp at hc
  | some content =>
    intro f hf c hc
    simp only [read_state_record] at hf
    by_cases h1 : content = []
    · simp [h1, empty_record] at hf
      subst hf
      simp at hc
    · rw [if_neg h1] at hf
      by_cases h2 : pyStrip content = []
      · simp [h2, empty_record] at hf
        subst hf
        simp at hc
      · rw [if_neg h2] at hf
        rcases pad5_mem _ _ hf with h3 | h3
        · have h4 := splitOnComma_mem (pyStrip content) f h3 c hc
          have h5 : c ∈ content := mem_pyStrip content c h4.1
          exact ⟨h4.2, hw c h5⟩
        · subst h3; simp at hc

theorem write_state_record_ne_nil (now : Str) (record : List Str) :
    write_state_record now record ≠ [] := by
  unfold write_state_record
  apply joinComma_ne_nil
  rw [List.length_set, pad5_length]
  omega

/-! ## Concrete fixtures for closed evaluations -/

/-- Environment in which every command succeeds silently. -/
def env_ok : ShellEnv := fun _ => ⟨[], [], 0⟩

/-- Environment in which exactly the command bad fails with exit 1. -/
def env_bad1 : ShellEnv := fun c => if c = str "bad" then ⟨[], [], 1⟩ else ⟨[], [], 0⟩

/-- Schedule in which every command finishes within its timeout. -/
def fin_all : Str → Bool := fun _ => true

/-- Schedule in which no command finishes within its timeout. -/
def fin_none : Str → Bool := fun _ => false

/-- Plain successful action named a1. -/
def act1 : Action := ⟨str "a1", str "true", [], [], [], [], false, none⟩

/-- Failing action named a1 with fatal_nok false. -/
def act_f : Action := ⟨str "a1", str "bad", [], [], [], [], false, none⟩

/-- Plain successful action named a2. -/
def act2 : Action := ⟨str "a2", str "true", [], [], [], [], false, none⟩

/-- Action with a one second timeout. -/
def act_to : Action := ⟨str "a", str "sleep 5", [], [], [], [], false, some 1⟩

/-- Failing action named a2 with fatal_nok true. -/
def act_fat : Action := ⟨str "a2", str "bad", [], [], [], [], true, none⟩

/-- Procedure policy: continue_on_failure false, no failure cap. -/
def p_nocont : ProcCtl := ⟨false, 0, 0⟩

/-- Procedure policy: continue_on_failure true, cap of one failure, with the
Procedure.failure_count attribute at its engine-run value of zero. -/
def p_max1 : ProcCtl := ⟨true, 1, 0⟩

/-- Fresh statistics for a two stage procedure. -/
def stats2 : ProcedureStats := ⟨2, 0, 2, 0, 0, 0⟩

/-! ## Claim theorems -/

/-- C10: calling the action level command executor with an empty command
string spawns nothing and returns a successful result with exit code zero,
empty output and zero execution time, so an unconfigured hook slot is a
vacuous success that cannot affect the action result. -/
theorem c10_empty_command_vacuous (env : ShellEnv) (finishes : Str → Bool)
    (a : Action) (elapsed : Nat) :
    Action.execute_command env finishes a elapsed [] =
      (⟨true, [], [], 0, 0⟩, []) := rfl

/-- C5 fails as stated: when the timeout elapses first, the synthetic result
carries stderr Command timed out, not the exact text timed out. -/
theorem c5_counterexample :
    (execute_with_timeout env_ok false (str "sleep 5")).1.stderr ≠ str "timed out" ∧
    (execute_with_timeout env_ok false (str "sleep 5")).1.stderr = str "Command timed out" ∧
    (execute_with_timeout env_ok false (str "sleep 5")).1.exit_code = 124 := by
  exact ⟨by decide, by decide, by decide⟩

/-- C5 amended: with a configured timeout, a command that completes in time
returns its real result; if the timeout elapses first, a synthetic result with
exit code 124, stderr Command timed out and success false is returned at the
action level, and the spawned process is never killed. -/
theorem c5_amended (env : ShellEnv) (finishes : Str → Bool) (a : Action)
    (t elapsed : Nat) (cmd : Str) :
    (finishes cmd = true →
      execute_with_timeout env (finishes cmd) cmd = (env cmd, [ProcOp.spawn cmd])) ∧
    (finishes cmd = false →
      execute_with_timeout env (finishes cmd) cmd = (timeout_result, [ProcOp.spawn cmd]) ∧
      timeout_result.exit_code = 124 ∧
      timeout_result.stderr = str "Command timed out" ∧
      (∀ c, ProcOp.kill c ∉ (execute_with_timeout env (finishes cmd) cmd).2) ∧
      (a.timeout = some t → cmd ≠ [] →
        (Action.execute_command env finishes a elapsed cmd).1 =
          ⟨false, [], str "Command timed out", 124, elapsed⟩)) := by
  constructor
  · intro hfin
    simp [execute_with_timeout, shell_execute, hfin]
  · intro hfin
    refine ⟨by simp [execute_with_timeout, shell_execute, hfin], by decide, by decide, ?_, ?_⟩
    · intro c
      simp [execute_with_timeout, shell_execute, hfin]
    · intro hto hcmd
      simp [Action.execute_command, hcmd, hto, execute_with_timeout, shell_execute,
        hfin, timeout_result]

/-- C5 witness: concrete timed out run observed at the action level. -/
theorem c5_witness :
    fin_none (str "sleep 5") = false ∧
    (Action.execute_command env_ok fin_none act_to 1 (str "sleep 5")).1 =
      ⟨false, [], str "Command timed out", 124, 1⟩ :=
  ⟨by decide,
    ((c5_amended env_ok fin_none act_to 1 1 (str "sleep 5")).2 (by decide)).2.2.2.2
      (by decide) (by decide)⟩

/-- C4: Action.execute returns exactly the success of the main command; the
setup hook runs only when configured and its result cannot abort the action;
exactly one of on-ok and on-nok fires, chosen by the main result, never both;
teardown runs whenever configured; no hook result changes the returned
boolean, which depends only on the main command. -/
theorem c4_hook_policy (env : ShellEnv) (finishes : Str → Bool) (a : Action) :
    (Action.execute env finishes a).1 =
      (Action.execute_command env finishes a 0 a.command).1.success ∧
    ((str "setup", a.setup_command) ∈ (Action.execute env finishes a).2 ↔
      a.setup_command ≠ []) ∧
    (str "main", a.command) ∈ (Action.execute env finishes a).2 ∧
    ((∃ c, (str "on-ok", c) ∈ (Action.execute env finishes a).2) ↔
      ((Action.execute_command env finishes a 0 a.command).1.success = true ∧
        a.on_ok_command ≠ [])) ∧
    ((∃ c, (str "on-nok", c) ∈ (Action.execute env finishes a).2) ↔
      ((Action.execute_command env finishes a 0 a.command).1.success = false ∧
        a.on_nok_command ≠ [])) ∧
    ¬((∃ c, (str "on-ok", c) ∈ (Action.execute env finishes a).2) ∧
      (∃ c, (str "on-nok", c) ∈ (Action.execute env finishes a).2)) ∧
    ((∃ c, (str "teardown", c) ∈ (Action.execute env finishes a).2) ↔
      a.teardown_command ≠ []) := by
  have d1 : str "setup" ≠ str "main" := by decide
  have d2 : str "on-ok" ≠ str "setup" := by decide
  have d3 : str "on-ok" ≠ str "main" := by decide
  have d4 : str "on-ok" ≠ str "teardown" := by decide
  have d5 : str "on-nok" ≠ str "setup" := by decide
  have d6 : str "on-nok" ≠ str "main" := by decide
  have d7 : str "on-nok" ≠ str "teardown" := by decide
  have d8 : str "on-ok" ≠ str "on-nok" := by decide
  have d9 : str "teardown" ≠ str "main" := by decide
  have d10 : str "setup" ≠ str "teardown" := by decide
  cases hm : (Action.execute_command env finishes a 0 a.command).1.success <;>
    by_cases hs : a.setup_command = [] <;>
    by_cases hok : a.on_ok_command = [] <;>
    by_cases hnok : a.on_nok_command = [] <;>
    by_cases htd : a.teardown_command = [] <;>
      simp_all [Action.execute, d1, d2, d3, d4, d5, d6, d7, d8, d9, d10,
        Ne.symm d1, Ne.symm d2, Ne.symm d3, Ne.symm d4, Ne.symm d5,
        Ne.symm d6, Ne.symm d7, Ne.symm d8, Ne.symm d9, Ne.symm d10]

/-- C1 fails as stated: a stage failure that aborts the loop early (here with
continue_on_failure false) returns from Procedure.execute before the cleanup
phase, so the declared cleanup command never runs and the State Channel is
left active instead of being cleared. -/
theorem c1_counterexample :
    (procedure_execute (str "t1") false 0 [str "cleanup1"] ⟨1, 0, 1, 0, 0, 0⟩
      (some (str "started,s,x,y,t0")) [(str "s1", StageOutcome.fail)]).1 = false ∧
    (procedure_execute (str "t1") false 0 [str "cleanup1"] ⟨1, 0, 1, 0, 0, 0⟩
      (some (str "started,s,x,y,t0")) [(str "s1", StageOutcome.fail)]).2.1 = [] ∧
    get_state (procedure_execute (str "t1") false 0 [str "cleanup1"] ⟨1, 0, 1, 0, 0, 0⟩
      (some (str "started,s,x,y,t0")) [(str "s1", StageOutcome.fail)]).2.2.1 = true := by
  exact ⟨by decide, by decide, by decide⟩

/-- C2 fails as stated: with the State Channel inactive (empty file) the stage
runner still executes its action and returns true instead of aborting. -/
theorem c2_counterexample :
    get_state (some []) = false ∧
    (stage_execute env_ok fin_all (str "t1") (some []) [act1]).2.2.2 = [str "a1"] ∧
    (stage_execute env_ok fin_all (str "t1") (some []) [act1]).1 = true := by
  exact ⟨by decide, by decide, by decide⟩

/-- C3: the failure cap logic of Procedure._should_continue_on_failure would
abort once the counter reaches max_failures, and Procedure.execute does abort
after one failure with max_failures one; but the engine loop increments only
the statistics counter while the cap consults the untouched
Procedure.failure_count attribute, so an engine driven run with two failing
stages and max_failures one still executes the second stage. -/
theorem c3_engine_cap_not_enforced :
    should_continue_on_failure ⟨true, 1, 1⟩ = false ∧
    (procedure_execute (str "t1") true 1 [] stats2 (some [])
      [(str "s1", StageOutcome.fail), (str "s2", StageOutcome.fail)]).2.2.2.failure_count = 1 ∧
    (procedure_execute (str "t1") true 1 [] stats2 (some [])
      [(str "s1", StageOutcome.fail), (str "s2", StageOutcome.fail)]).1 = false ∧
    (engine_execute p_max1 [] [(str "s1", false), (str "s2", false)] (2, 2)).2.2 =
      [str "s1", str "s2"] ∧
    (engine_execute p_max1 [] [(str "s1", false), (str "s2", false)] (2, 2)).2.1.failure_count = 2 := by
  exact ⟨by decide, by decide, by decide, by decide, by decide⟩

/-- C6 fails as stated: in the engine controlled stage loop a failing action
with fatal_nok false still aborts the stage when the procedure continue policy
denies continuation, so the second action never runs. -/
theorem c6_counterexample :
    act_f.fatal_nok = false ∧ act2.fatal_nok = false ∧
    (Action.execute env_bad1 fin_all act_f).1 = false ∧
    (engine_stage env_bad1 fin_all p_nocont (str "t1") (some []) [] [act_f, act2]).2.2.2 =
      [str "a1"] ∧
    (engine_stage env_bad1 fin_all p_nocont (str "t1") (some []) [] [act_f, act2]).1 = false := by
  exact ⟨by decide, by decide, by decide, by decide, by decide⟩

/-- C7 fails as stated for index 4: the update call succeeds but the written
field is the fresh timestamp, not the supplied value. -/
theorem c7_counterexample :
    (update_state (str "t1") (some (str "started,a,b,c,t0")) 4 (str "X")).2 = true ∧
    get_state_field (update_state (str "t1") (some (str "started,a,b,c,t0")) 4 (str "X")).1 4 ≠
      some (str "X") ∧
    get_state_field (update_state (str "t1") (some (str "started,a,b,c,t0")) 4 (str "X")).1 4 =
      some (str "t1") := by
  exact ⟨by decide, by decide, by decide⟩

theorem validate_state_iff (state : Bool) (previous action : Str) :
    validate_state state previous action = true ↔ allowed_transition previous action := by
  have e1 : (str "start" : Str) ≠ str "stop" := by decide
  have e2 : (str "start" : Str) ≠ str "pause" := by decide
  have e3 : (str "start" : Str) ≠ str "resume" := by decide
  have e4 : (str "stop" : Str) ≠ str "pause" := by decide
  have e5 : (str "stop" : Str) ≠ str "resume" := by decide
  have e6 : (str "pause" : Str) ≠ str "resume" := by decide
  unfold validate_state allowed_transition validate_start validate_stop validate_resume
  by_cases h1 : action = str "start"
  · subst h1
    simp [e1, e2, e3, Ne.symm e1, Ne.symm e2, Ne.symm e3]
    tauto
  · by_cases h2 : action = str "stop"
    · subst h2
      simp [h1, e4, e5, Ne.symm e1, decide_eq_true_eq]
      try tauto
    · by_cases h3 : action = str "pause"
      · subst h3
        simp [h1, h2, e6, Ne.symm e2, Ne.symm e4, decide_eq_true_eq]
        try tauto
      · by_cases h4 : action = str "resume"
        · subst h4
          simp [h1, h2, h3, Ne.symm e3, Ne.symm e5, Ne.symm e6, decide_eq_true_eq]
          try tauto
        · simp [h1, h2, h3, h4]

/-- C8: the transition validator accepts exactly the verb state machine of the
spec (start from blank or purged, pause and stop from started or resumed,
resume from paused) and rejects every other pair; each guarded engine
operation reports failure and leaves the state record unchanged when the
validator rejects. -/
theorem c8_transition_guard :
    (∀ state previous action,
      validate_state state previous action = true ↔ allowed_transition previous action) ∧
    (∀ now file, validate_state (get_state file) (previous_action file) (str "start") = false →
      start_procedure now file = (false, file)) ∧
    (∀ now file, validate_state (get_state file) (previous_action file) (str "pause") = false →
      pause_procedure now file = (false, file)) ∧
    (∀ now file, validate_state (get_state file) (previous_action file) (str "resume") = false →
      resume_procedure now file = (false, file)) ∧
    (∀ now file, validate_state (get_state file) (previous_action file) (str "stop") = false →
      stop_procedure now file = (false, file)) := by
  refine ⟨validate_state_iff, ?_, ?_, ?_, ?_⟩ <;>
    intro now file h <;>
    simp [start_procedure, pause_procedure, resume_procedure, stop_procedure, h]

/-- C8 witness: the P6 instances, a start from a blank channel allowed and a
start over a started channel rejected without mutation. -/
theorem c8_witness :
    validate_state false [] (str "start") = true ∧
    validate_state true (str "started") (str "start") = false ∧
    start_procedure (str "t1") (some (str "started,a,b,c,t0")) =
      (false, some (str "started,a,b,c,t0")) :=
  ⟨(c8_transition_guard.1 false [] (str "start")).mpr (by decide),
    by decide,
    c8_transition_guard.2.1 (str "t1") (some (str "started,a,b,c,t0")) (by decide)⟩

/-- C9: on a poll tick where the stripped file content differs from the last
observed snapshot, empty content fires the stop callback, and otherwise the
lowercased first comma separated field selects the registered callback,
accepting both imperative and past participle forms of pause, resume and
stop. -/
theorem c9_watcher_dispatch (content last : Str) (hdiff : pyStrip content ≠ last) :
    (pyStrip content = [] →
      check_state_changes engine_callbacks (some content) last = (some (str "stop"), [])) ∧
    (∀ v, v = lower ((splitOnComma (pyStrip content)).headD []) → pyStrip content ≠ [] →
      ((v = str "pause" ∨ v = str "paused") →
        check_state_changes engine_callbacks (some content) last =
          (some (str "pause"), pyStrip content)) ∧
      ((v = str "resume" ∨ v = str "resumed") →
        check_state_changes engine_callbacks (some content) last =
          (some (str "resume"), pyStrip content)) ∧
      ((v = str "stop" ∨ v = str "stopped") →
        check_state_changes engine_callbacks (some content) last =
          (some (str "stop"), pyStrip content))) := by
  have key : ∀ v : Str, v = lower ((splitOnComma (pyStrip content)).headD []) →
      pyStrip content ≠ [] →
      check_state_changes engine_callbacks (some content) last =
        (dispatch_verb engine_callbacks v, pyStrip content) := by
    intro v hv hne
    simp only [check_state_changes, dispatch_verb]
    rw [if_neg hdiff, if_neg hne, ← hv]
    split_ifs <;> rfl
  constructor
  · intro hempty
    have hdiff2 : ¬(([] : Str) = last) := by rw [← hempty]; exact hdiff
    have m3 : (str "stop") ∈ engine_callbacks := by decide
    simp [check_state_changes, hempty, hdiff2, m3]
  · intro v hv hne
    refine ⟨?_, ?_, ?_⟩ <;> rintro (h | h) <;> subst h <;> rw [key _ hv hne] <;>
      norm_num [show dispatch_verb engine_callbacks (str "pause") = some (str "pause") from by decide,
        show dispatch_verb engine_callbacks (str "paused") = some (str "pause") from by decide,
        show dispatch_verb engine_callbacks (str "resume") = some (str "resume") from by decide,
        show dispatch_verb engine_callbacks (str "resumed") = some (str "resume") from by decide,
        show dispatch_verb engine_callbacks (str "stop") = some (str "stop") from by decide,
        show dispatch_verb engine_callbacks (str "stopped") = some (str "stop") from by decide]

/-- C9 witness: a changed snapshot with uppercase past participle verb fires
the pause callback. -/
theorem c9_witness :
    pyStrip (str "PAUSED,x,y") ≠ ([] : Str) ∧
    check_state_changes engine_callbacks (some (str "PAUSED,x,y")) [] =
      (some (str "pause"), str "PAUSED,x,y") :=
  ⟨by decide,
    ((c9_watcher_dispatch (str "PAUSED,x,y") [] (by decide)).2 (str "paused")
      (by decide) (by decide)).1 (Or.inr rfl)⟩

theorem get_state_update (now val : Str) (file : FileContent) (idx : Int)
    (h0 : 0 ≤ idx) (h4 : idx < 5) :
    get_state (update_state now file idx val).1 = true := by
  have hlen := read_state_record_length file
  have hcond : ¬(idx < 0 ∨ ((read_state_record file).length : Int) ≤ idx) := by
    rw [hlen]
    push_cast
    omega
  simp only [update_state]
  rw [if_neg hcond]
  simp [get_state, write_state_record_ne_nil]

theorem procedure_loop_cleanup_runs (now : Str) (maxf : Int) (cmds : List Str)
    (hm : maxf ≤ 0) :
    ∀ (stages : List (Str × StageOutcome)) (fc : Nat) (stats : ProcedureStats)
      (file : FileContent),
    (procedure_execute_loop now true maxf cmds fc stats file stages).2.1 = cmds ∧
    (procedure_execute_loop now true maxf cmds fc stats file stages).2.2.1 = some [] := by
  intro stages
  induction stages with
  | nil =>
    intro fc stats file
    constructor <;> simp [procedure_execute_loop, cleanup, set_state]
  | cons s rest ih =>
    intro fc stats file
    obtain ⟨name, outcome⟩ := s
    cases outcome with
    | raises => constructor <;> simp [procedure_execute_loop, cleanup, set_state]
    | ok =>
      simpa [procedure_execute_loop] using ih fc _ _
    | fail =>
      have hsc : should_continue_on_failure ⟨true, maxf, fc + 1⟩ = true := by
        simp only [should_continue_on_failure]
        rw [if_neg]
        rintro ⟨h1, h2⟩
        omega
      simpa [procedure_execute_loop, hsc] using ih (fc + 1) _ _

theorem procedure_loop_cleanup_on_raises (now : Str) (cont : Bool) (maxf : Int)
    (cmds : List Str) :
    ∀ (pre : List (Str × StageOutcome)) (x : Str × StageOutcome)
      (rest : List (Str × StageOutcome)) (fc : Nat) (stats : ProcedureStats)
      (file : FileContent),
    (∀ y ∈ pre, y.2 = StageOutcome.ok) → x.2 = StageOutcome.raises →
    (procedure_execute_loop now cont maxf cmds fc stats file (pre ++ x :: rest)).2.1 = cmds ∧
    (procedure_execute_loop now cont maxf cmds fc stats file (pre ++ x :: rest)).2.2.1 = some [] := by
  intro pre
  induction pre with
  | nil =>
    intro x rest fc stats file hpre hx
    obtain ⟨n, o⟩ := x
    simp only at hx
    subst hx
    constructor <;> simp [procedure_execute_loop, cleanup, set_state]
  | cons y ys ih =>
    intro x rest fc stats file hpre hx
    obtain ⟨n, o⟩ := y
    have ho : o = StageOutcome.ok := hpre (n, o) (List.mem_cons_self _ _)
    subst ho
    simpa [procedure_execute_loop] using
      ih x rest fc _ _ (fun y hy => hpre y (List.mem_cons_of_mem _ hy)) hx

theorem procedure_loop_abort (now : Str) (cont : Bool) (maxf : Int)
    (cmds : List Str) :
    ∀ (pre : List (Str × StageOutcome)) (x : Str × StageOutcome)
      (rest : List (Str × StageOutcome)) (fc : Nat) (stats : ProcedureStats)
      (file : FileContent),
    (∀ y ∈ pre, y.2 = StageOutcome.ok) → x.2 = StageOutcome.fail →
    should_continue_on_failure ⟨cont, maxf, fc + 1⟩ = false →
    (procedure_execute_loop now cont maxf cmds fc stats file (pre ++ x :: rest)).1 = false ∧
    (procedure_execute_loop now cont maxf cmds fc stats file (pre ++ x :: rest)).2.1 = [] ∧
    get_state (procedure_execute_loop now cont maxf cmds fc stats file (pre ++ x :: rest)).2.2.1 = true := by
  intro pre
  induction pre with
  | nil =>
    intro x rest fc stats file hpre hx hsc
    obtain ⟨n, o⟩ := x
    simp only at hx
    subst hx
    have hg : get_state (update_state now file 2 n).1 = true :=
      get_state_update now n file 2 (by omega) (by omega)
    refine ⟨?_, ?_, ?_⟩ <;> simp [procedure_execute_loop, hsc, hg]
  | cons y ys ih =>
    intro x rest fc stats file hpre hx hsc
    obtain ⟨n, o⟩ := y
    have ho : o = StageOutcome.ok := hpre (n, o) (List.mem_cons_self _ _)
    subst ho
    simpa [procedure_execute_loop] using
      ih x rest fc _ _ (fun y hy => hpre y (List.mem_cons_of_mem _ hy)) hx hsc

/-- C1 amended: the cleanup phase of Procedure.execute (all declared cleanup
commands executed best effort, then the State Channel cleared through
set_state false completed) runs whenever the stage loop completes all stages
(in particular always when continue_on_failure is true with no failure cap)
and whenever an exception is raised mid loop; but when a stage failure causes
the early abort return, no cleanup command runs and the State Channel is left
active instead of being cleared. -/
theorem c1_amended (now : Str) (cont : Bool) (maxf : Int) (cmds : List Str)
    (stats : ProcedureStats) (file : FileContent) :
    (∀ stages, cont = true → maxf ≤ 0 →
      (procedure_execute now cont maxf cmds stats file stages).2.1 = cmds ∧
      (procedure_execute now cont maxf cmds stats file stages).2.2.1 = some []) ∧
    (∀ pre x rest, (∀ y ∈ pre, y.2 = StageOutcome.ok) → x.2 = StageOutcome.raises →
      (procedure_execute now cont maxf cmds stats file (pre ++ x :: rest)).2.1 = cmds ∧
      (procedure_execute now cont maxf cmds stats file (pre ++ x :: rest)).2.2.1 = some []) ∧
    (∀ pre x rest, (∀ y ∈ pre, y.2 = StageOutcome.ok) → x.2 = StageOutcome.fail →
      should_continue_on_failure ⟨cont, maxf, 1⟩ = false →
      (procedure_execute now cont maxf cmds stats file (pre ++ x :: rest)).1 = false ∧
      (procedure_execute now cont maxf cmds stats file (pre ++ x :: rest)).2.1 = [] ∧
      get_state (procedure_execute now cont maxf cmds stats file (pre ++ x :: rest)).2.2.1 = true) := by
  refine ⟨?_, ?_, ?_⟩
  · intro stages hcont hm
    subst hcont
    exact procedure_loop_cleanup_runs now maxf cmds hm stages 0 stats file
  · intro pre x rest hpre hx
    exact procedure_loop_cleanup_on_raises now cont maxf cmds pre x rest 0 stats file hpre hx
  · intro pre x rest hpre hx hsc
    exact procedure_loop_abort now cont maxf cmds pre x rest 0 stats file hpre hx hsc

/-- C1 witness: with continue_on_failure false a failing first stage skips the
cleanup phase, while the same procedure under continue_on_failure true runs
it. -/
theorem c1_witness :
    ((∀ y ∈ ([] : List (Str × StageOutcome)), y.2 = StageOutcome.ok) ∧
      (str "s1", StageOutcome.fail).2 = StageOutcome.fail ∧
      should_continue_on_failure ⟨false, 0, 1⟩ = false ∧
      (procedure_execute (str "t1") false 0 [str "c1"] stats2
        (some (str "started,s,x,y,t0")) [(str "s1", StageOutcome.fail)]).2.1 = []) ∧
    (procedure_execute (str "t1") true 0 [str "c1"] stats2
      (some (str "started,s,x,y,t0")) [(str "s1", StageOutcome.fail)]).2.1 = [str "c1"] :=
  ⟨⟨by simp, rfl, by decide,
      ((c1_amended (str "t1") false 0 [str "c1"] stats2
        (some (str "started,s,x,y,t0"))).2.2 [] (str "s1", StageOutcome.fail) []
        (by simp) rfl (by decide)).2.1⟩,
    ((c1_amended (str "t1") true 0 [str "c1"] stats2
      (some (str "started,s,x,y,t0"))).1 [(str "s1", StageOutcome.fail)] rfl
      (by omega)).1⟩

theorem engine_stage_stop (env : ShellEnv) (finishes : Str → Bool) (p : ProcCtl)
    (now : Str) :
    ∀ (i : Nat) (actions : List Action) (flags : List Bool) (file : FileContent)
      (stats : StageStats),
    i < actions.length →
    flags.getD i false = true →
    (∀ j, j < i → flags.getD j false = false) →
    (∀ a ∈ actions.take i, (Action.execute env finishes a).1 = true) →
    (engine_stage_from env finishes p now file flags stats actions).1 = false ∧
    (engine_stage_from env finishes p now file flags stats actions).2.2.2 =
      (actions.take i).map Action.name := by
  intro i
  induction i with
  | zero =>
    intro actions flags file stats hlen hflag hbefore hsucc
    cases actions with
    | nil => simp at hlen
    | cons a rest =>
      cases flags with
      | nil => simp at hflag
      | cons b bs =>
        have hb : b = true := by simpa using hflag
        subst hb
        constructor <;> simp [engine_stage_from]
  | succ i ih =>
    intro actions flags file stats hlen hflag hbefore hsucc
    cases actions with
    | nil => simp at hlen
    | cons a rest =>
      cases flags with
      | nil => simp at hflag
      | cons b bs =>
        have hb : b = false := by simpa using hbefore 0 (Nat.succ_pos i)
        subst hb
        have hsa : (Action.execute env finishes a).1 = true := by
          apply hsucc a
          simp [List.take_succ_cons]
        have hrec := ih rest bs (update_state now file 3 a.name).1
          ⟨stats.total_actions, stats.completed_actions + 1,
            stats.success_count + 1, stats.failure_count⟩
          (by simpa using hlen)
          (by simpa using hflag)
          (fun j hj => by simpa using hbefore (j + 1) (Nat.succ_lt_succ hj))
          (fun x hx => hsucc x (by simp [List.take_succ_cons, hx]))
        simp only [engine_stage_from, List.headD_cons, if_false, Bool.false_eq_true,
          reduceIte, hsa, if_true, List.tail_cons]
        refine ⟨hrec.1, ?_⟩
        simp [List.take_succ_cons, hrec.2]

/-- C2 amended: before each action the engine controlled stage loop checks the
execution_stopped flag maintained by the State Watcher rather than reading the
State Channel itself: when the flag is first observed set at the checkpoint
before action i (earlier checkpoints clear and earlier actions succeeding),
the stage aborts immediately and returns false, with exactly the first i
actions executed and neither that action nor any later one run.  The plain
Stage.execute performs no such check at all, and an inactive channel alone
does not abort the stage, as the counterexample shows. -/
theorem c2_amended (env : ShellEnv) (finishes : Str → Bool) (p : ProcCtl)
    (now : Str) (file : FileContent) (flags : List Bool) (actions : List Action)
    (i : Nat) (hlen : i < actions.length) (hflag : flags.getD i false = true)
    (hbefore : ∀ j, j < i → flags.getD j false = false)
    (hsucc : ∀ a ∈ actions.take i, (Action.execute env finishes a).1 = true) :
    (engine_stage env finishes p now file flags actions).1 = false ∧
    (engine_stage env finishes p now file flags actions).2.2.2 =
      (actions.take i).map Action.name :=
  engine_stage_stop env finishes p now i actions flags file
    ⟨actions.length, 0, 0, 0⟩ hlen hflag hbefore hsucc

/-- C2 witness: the stop flag observed before the second action aborts the
stage after exactly one executed action. -/
theorem c2_witness :
    (1 < 2 ∧ ([false, true].getD 1 false = true)) ∧
    (engine_stage env_ok fin_all p_max1 (str "t1") (some []) [false, true]
      [act1, act2]).1 = false ∧
    (engine_stage env_ok fin_all p_max1 (str "t1") (some []) [false, true]
      [act1, act2]).2.2.2 = [str "a1"] :=
  ⟨⟨by omega, by decide⟩, by
    have h := c2_amended env_ok fin_all p_max1 (str "t1") (some []) [false, true]
      [act1, act2] 1 (by decide) (by decide)
      (by intro j hj; interval_cases j; decide)
      (by intro a ha; simp [List.take] at ha; subst ha; decide)
    exact ⟨h.1, by rw [h.2]; decide⟩⟩

theorem stage_from_nonfatal (env : ShellEnv) (finishes : Str → Bool) (now : Str) :
    ∀ (actions : List Action) (file : FileContent) (stats : StageStats),
    (∀ a ∈ actions, a.fatal_nok = false) →
    (stage_execute_from env finishes now file stats actions).2.2.2 =
      actions.map Action.name ∧
    (stage_execute_from env finishes now file stats actions).2.1.failure_count =
      stats.failure_count + actions.countP (fun a => !(Action.execute env finishes a).1) ∧
    (stage_execute_from env finishes now file stats actions).1 =
      decide (stats.failure_count +
        actions.countP (fun a => !(Action.execute env finishes a).1) = 0) := by
  intro actions
  induction actions with
  | nil =>
    intro file stats h
    simp [stage_execute_from]
  | cons a rest ih =>
    intro file stats h
    have ha : a.fatal_nok = false := h a (List.mem_cons_self _ _)
    have hrest := fun file stats => ih file stats (fun x hx => h x (List.mem_cons_of_mem _ hx))
    cases hexec : (Action.execute env finishes a).1 with
    | true =>
      have h1 := hrest (update_state now file 3 a.name).1
        ⟨stats.total_actions, stats.completed_actions + 1,
          stats.success_count + 1, stats.failure_count⟩
      simp only [stage_execute_from, hexec, if_true]
      refine ⟨by simp [h1.1], ?_, ?_⟩ <;>
        simp [h1.2.1, h1.2.2, List.countP_cons, hexec]
    | false =>
      have h1 := hrest (update_state now file 3 a.name).1
        ⟨stats.total_actions, stats.completed_actions,
          stats.success_count, stats.failure_count + 1⟩
      simp only [stage_execute_from, hexec, Bool.false_eq_true, if_false, ha, reduceIte]
      refine ⟨by simp [h1.1], ?_, ?_⟩
      · simp [h1.2.1, h1.2.2, List.countP_cons, hexec]
        try omega
      · simp [h1.2.1, h1.2.2, List.countP_cons, hexec]
        try omega

theorem stage_from_fatal (env : ShellEnv) (finishes : Str → Bool) (now : Str) :
    ∀ (pre : List Action) (a : Action) (rest : List Action) (file : FileContent)
      (stats : StageStats),
    (∀ x ∈ pre, x.fatal_nok = false) →
    (Action.execute env finishes a).1 = false →
    a.fatal_nok = true →
    (stage_execute_from env finishes now file stats (pre ++ a :: rest)).1 = false ∧
    (stage_execute_from env finishes now file stats (pre ++ a :: rest)).2.2.2 =
      pre.map Action.name ++ [a.name] := by
  intro pre
  induction pre with
  | nil =>
    intro a rest file stats hpre hexec hfat
    constructor <;> simp [stage_execute_from, hexec, hfat]
  | cons x xs ih =>
    intro a rest file stats hpre hexec hfat
    have hx : x.fatal_nok = false := hpre x (List.mem_cons_self _ _)
    have hxs : ∀ y ∈ xs, y.fatal_nok = false :=
      fun y hy => hpre y (List.mem_cons_of_mem _ hy)
    cases hxe : (Action.execute env finishes x).1 with
    | true =>
      have hrec := ih a rest (update_state now file 3 x.name).1
        ⟨stats.total_actions, stats.completed_actions + 1,
          stats.success_count + 1, stats.failure_count⟩ hxs hexec hfat
      simp only [List.cons_append, stage_execute_from, hxe, if_true]
      exact ⟨hrec.1, by simp [hrec.2]⟩
    | false =>
      have hrec := ih a rest (update_state now file 3 x.name).1
        ⟨stats.total_actions, stats.completed_actions,
          stats.success_count, stats.failure_count + 1⟩ hxs hexec hfat
      simp only [List.cons_append, stage_execute_from, hxe, Bool.false_eq_true,
        if_false, hx, reduceIte]
      exact ⟨hrec.1, by simp [hrec.2]⟩

theorem engine_stage_from_abort (env : ShellEnv) (finishes : Str → Bool)
    (p : ProcCtl) (now : Str) :
    ∀ (pre : List Action) (a : Action) (rest : List Action) (file : FileContent)
      (stats : StageStats),
    (∀ x ∈ pre, (Action.execute env finishes x).1 = true) →
    (Action.execute env finishes a).1 = false →
    should_continue_on_action_failure p a = false →
    (engine_stage_from env finishes p now file [] stats (pre ++ a :: rest)).1 = false ∧
    (engine_stage_from env finishes p now file [] stats (pre ++ a :: rest)).2.2.2 =
      pre.map Action.name ++ [a.name] := by
  intro pre
  induction pre with
  | nil =>
    intro a rest file stats hpre hexec hcc
    constructor <;> simp [engine_stage_from, hexec, hcc]
  | cons x xs ih =>
    intro a rest file stats hpre hexec hcc
    have hx : (Action.execute env finishes x).1 = true := hpre x (List.mem_cons_self _ _)
    have hrec := ih a rest (update_state now file 3 x.name).1
      ⟨stats.total_actions, stats.completed_actions + 1,
        stats.success_count + 1, stats.failure_count⟩
      (fun y hy => hpre y (List.mem_cons_of_mem _ hy)) hexec hcc
    simp only [List.cons_append, engine_stage_from, List.headD_nil,
      Bool.false_eq_true, if_false, reduceIte, hx, if_true, List.tail_nil]
    exact ⟨hrec.1, by simp [hrec.2]⟩

theorem engine_stage_from_all (env : ShellEnv) (finishes : Str → Bool)
    (p : ProcCtl) (now : Str) (hc : should_continue_on_failure p = true) :
    ∀ (actions : List Action) (file : FileContent) (stats : StageStats),
    (∀ a ∈ actions, a.fatal_nok = false) →
    (engine_stage_from env finishes p now file [] stats actions).2.2.2 =
      actions.map Action.name := by
  intro actions
  induction actions with
  | nil =>
    intro file stats h
    simp [engine_stage_from]
  | cons a rest ih =>
    intro file stats h
    have ha : a.fatal_nok = false := h a (List.mem_cons_self _ _)
    have hcc : should_continue_on_action_failure p a = true := by
      simp [should_continue_on_action_failure, ha, hc]
    have hrest := fun file stats => ih file stats (fun x hx => h x (List.mem_cons_of_mem _ hx))
    cases hexec : (Action.execute env finishes a).1 with
    | true =>
      simp only [engine_stage_from, List.headD_nil, Bool.false_eq_true, if_false,
        reduceIte, hexec, if_true, List.tail_nil]
      simp [hrest]
    | false =>
      simp only [engine_stage_from, List.headD_nil, Bool.false_eq_true, if_false,
        reduceIte, hexec, hcc, List.tail_nil]
      simp [hrest]

/-- C6 amended: in Stage.execute the claimed behavior holds unconditionally
(with fatal_nok false everywhere all actions run, the failure count is the
number of failed actions and the stage result is false exactly when one
failed; a failing action with fatal_nok true, at any position after a prefix
of non fatal actions, aborts the stage immediately: the actions before it and
itself have run and no subsequent action runs); in the engine controlled
stage loop the same continuation after an action failure also requires both
the fatal flag and the procedure level continue policy to allow it, so at any
position after a succeeding prefix a failing action whose fatal flag or
procedure policy denies continuation aborts the stage at once (in particular
with continue_on_failure false even when its fatal_nok is false), while under
an allowing policy a stage of non fatal actions runs them all. -/
theorem c6_amended (env : ShellEnv) (finishes : Str → Bool) (p : ProcCtl)
    (now : Str) (file : FileContent) :
    (∀ actions, (∀ a ∈ actions, a.fatal_nok = false) →
      (stage_execute env finishes now file actions).2.2.2 = actions.map Action.name ∧
      (stage_execute env finishes now file actions).2.1.failure_count =
        actions.countP (fun a => !(Action.execute env finishes a).1) ∧
      (stage_execute env finishes now file actions).1 =
        decide (actions.countP (fun a => !(Action.execute env finishes a).1) = 0)) ∧
    (∀ pre a rest, (∀ x ∈ pre, x.fatal_nok = false) →
      (Action.execute env finishes a).1 = false → a.fatal_nok = true →
      (stage_execute env finishes now file (pre ++ a :: rest)).1 = false ∧
      (stage_execute env finishes now file (pre ++ a :: rest)).2.2.2 =
        pre.map Action.name ++ [a.name]) ∧
    (∀ pre a rest, (∀ x ∈ pre, (Action.execute env finishes x).1 = true) →
      (Action.execute env finishes a).1 = false →
      should_continue_on_action_failure p a = false →
      (engine_stage env finishes p now file [] (pre ++ a :: rest)).1 = false ∧
      (engine_stage env finishes p now file [] (pre ++ a :: rest)).2.2.2 =
        pre.map Action.name ++ [a.name]) ∧
    (∀ actions, should_continue_on_failure p = true →
      (∀ a ∈ actions, a.fatal_nok = false) →
      (engine_stage env finishes p now file [] actions).2.2.2 =
        actions.map Action.name) := by
  refine ⟨?_, ?_, ?_, ?_⟩
  · intro actions h
    have h1 := stage_from_nonfatal env finishes now actions file
      ⟨actions.length, 0, 0, 0⟩ h
    exact ⟨h1.1, by simpa using h1.2.1, by simpa using h1.2.2⟩
  · intro pre a rest hpre hexec hfat
    exact stage_from_fatal env finishes now pre a rest file
      ⟨(pre ++ a :: rest).length, 0, 0, 0⟩ hpre hexec hfat
  · intro pre a rest hpre hexec hcc
    exact engine_stage_from_abort env finishes p now pre a rest file
      ⟨(pre ++ a :: rest).length, 0, 0, 0⟩ hpre hexec hcc
  · intro actions hsc h
    exact engine_stage_from_all env finishes p now hsc actions file
      ⟨actions.length, 0, 0, 0⟩ h

/-- C6 witness: the P1 scenario (non fatal failure, all actions run), the P2
scenario (fatal action at position 2 of 3, action 3 never runs), and the
engine policy abort. -/
theorem c6_witness :
    ((∀ a ∈ [act_f, act2], a.fatal_nok = false) ∧
      (stage_execute env_bad1 fin_all (str "t1") (some []) [act_f, act2]).2.2.2 =
        [str "a1", str "a2"] ∧
      (stage_execute env_bad1 fin_all (str "t1") (some []) [act_f, act2]).2.1.failure_count = 1 ∧
      (stage_execute env_bad1 fin_all (str "t1") (some []) [act_f, act2]).1 = false) ∧
    ((Action.execute env_bad1 fin_all act_fat).1 = false ∧ act_fat.fatal_nok = true ∧
      (stage_execute env_bad1 fin_all (str "t1") (some []) [act1, act_fat, act2]).1 = false ∧
      (stage_execute env_bad1 fin_all (str "t1") (some []) [act1, act_fat, act2]).2.2.2 =
        [str "a1", str "a2"]) ∧
    (engine_stage env_bad1 fin_all p_nocont (str "t1") (some []) [] [act_f, act2]).2.2.2 =
      [str "a1"] := by
  have h := (c6_amended env_bad1 fin_all p_nocont (str "t1") (some [])).1
    [act_f, act2] (by decide)
  have hfatal := (c6_amended env_bad1 fin_all p_nocont (str "t1") (some [])).2.1
    [act1] act_fat [act2] (by decide) (by decide) (by decide)
  have h2 := ((c6_amended env_bad1 fin_all p_nocont (str "t1") (some [])).2.2.1
    [] act_f [act2] (by decide) (by decide) (by decide)).2
  refine ⟨⟨by decide, ?_, ?_, ?_⟩, ⟨by decide, by decide, hfatal.1, ?_⟩, ?_⟩
  · rw [h.1]; decide
  · rw [h.2.1]; decide
  · rw [h.2.2]; decide
  · have h3 := hfatal.2
    simp only [List.cons_append, List.nil_append] at h3
    rw [h3]; decide
  · have h4 := h2
    simp only [List.nil_append] at h4
    rw [h4]; decide

theorem get_state_field_joinComma (L : List Str) (j : Nat) (hlen : 2 ≤ L.length)
    (hclean : ∀ f ∈ L, ∀ c ∈ f, c ≠ ',' ∧ isWS c = false) :
    get_state_field (some (joinComma L)) j = L.get? j := by
  have hne : joinComma L ≠ [] := joinComma_ne_nil L hlen
  have hnws : ∀ c ∈ joinComma L, isWS c = false := by
    intro c hc
    rcases mem_joinComma L c hc with h | ⟨f, hf, hcf⟩
    · subst h; decide
    · exact (hclean f hf c hcf).2
  have hstrip : pyStrip (joinComma L) = joinComma L := pyStrip_eq_self _ hnws
  have hsplit : splitOnComma (joinComma L) = L :=
    splitOnComma_joinComma L (by rintro rfl; simp at hlen)
      (fun f hf c hc => (hclean f hf c hc).1)
  have hgs : get_state (some (joinComma L)) = true := by
    simp [get_state, hne]
  simp [get_state_field, hgs, hstrip, hne, hsplit]

/-- C7 amended: for an update of field 0 to 3 the targeted field becomes the
supplied value, every other field except the timestamp survives the write
unchanged, and the timestamp field is freshly restamped on every write; an
update of field 4 itself also succeeds but the written value is the fresh
timestamp rather than the supplied one, as the counterexample shows.  Fields
are assumed free of commas and whitespace, the wire format precondition of the
comma joined record. -/
theorem c7_amended (now val : Str) (file : FileContent) (idx : Int)
    (h0 : 0 ≤ idx) (h3 : idx ≤ 3)
    (hcontent : ∀ c ∈ file.getD [], isWS c = false)
    (hval : ∀ c ∈ val, c ≠ ',' ∧ isWS c = false)
    (hnow : ∀ c ∈ now, c ≠ ',' ∧ isWS c = false) :
    (update_state now file idx val).2 = true ∧
    get_state_field (update_state now file idx val).1 idx.toNat = some val ∧
    (∀ j, j < 4 → j ≠ idx.toNat →
      get_state_field (update_state now file idx val).1 j =
        (read_state_record file).get? j) ∧
    get_state_field (update_state now file idx val).1 4 = some now := by
  have hlen0 : (read_state_record file).length = 5 := read_state_record_length file
  have hclean0 := read_state_record_clean file hcontent
  have hidxlt : idx.toNat < 5 := by omega
  have hidx3 : idx.toNat ≤ 3 := by omega
  have hcond : ¬(idx < 0 ∨ ((read_state_record file).length : Int) ≤ idx) := by
    rw [hlen0]
    push_cast
    omega
  have hpad : pad5 ((read_state_record file).set idx.toNat val) =
      (read_state_record file).set idx.toNat val :=
    pad5_eq_self _ (by rw [List.length_set, hlen0])
  have hupd : update_state now file idx val =
      (some (joinComma (((read_state_record file).set idx.toNat val).set 4 now)), true) := by
    simp only [update_state, write_state_record]
    rw [if_neg hcond, hpad]
  have hlenset : ((read_state_record file).set idx.toNat val).length = 5 := by
    rw [List.length_set, hlen0]
  have hlen2 : (((read_state_record file).set idx.toNat val).set 4 now).length = 5 := by
    rw [List.length_set, hlenset]
  have hclean2 : ∀ f ∈ ((read_state_record file).set idx.toNat val).set 4 now,
      ∀ c ∈ f, c ≠ ',' ∧ isWS c = false := by
    intro f hf
    rcases List.mem_or_eq_of_mem_set hf with hf2 | hf2
    · rcases List.mem_or_eq_of_mem_set hf2 with hf3 | hf3
      · exact hclean0 f hf3
      · subst hf3; exact hval
    · subst hf2; exact hnow
  have hfield : ∀ j, get_state_field (update_state now file idx val).1 j =
      ((((read_state_record file).set idx.toNat val).set 4 now).get? j) := by
    intro j
    rw [hupd]
    exact get_state_field_joinComma _ j (by rw [hlen2]; omega) hclean2
  refine ⟨by rw [hupd], ?_, ?_, ?_⟩
  · rw [hfield]
    rw [List.get?_set_of_lt now (l := (read_state_record file).set idx.toNat val)
      (by rw [hlenset]; omega)]
    rw [if_neg (by omega)]
    rw [List.get?_set_of_lt val (l := read_state_record file) (by rw [hlen0]; omega)]
    rw [if_pos rfl]
  · intro j hj hne
    rw [hfield]
    rw [List.get?_set_of_lt now (l := (read_state_record file).set idx.toNat val)
      (by rw [hlenset]; omega)]
    rw [if_neg (by omega)]
    rw [List.get?_set_of_lt val (l := read_state_record file) (by rw [hlen0]; omega)]
    rw [if_neg (by omega)]
  · rw [hfield]
    rw [List.get?_set_of_lt now (l := (read_state_record file).set idx.toNat val)
      (by rw [hlenset]; omega)]
    rw [if_pos rfl]

/-- C7 witness: the P5 scenario, with the general theorem applied at index 2
and the two update round trip checked concretely. -/
theorem c7_witness :
    ((0 : Int) ≤ 2 ∧ (2 : Int) ≤ 3 ∧
      get_state_field (update_state (str "t1") (some (str "started,a,b,c,t0")) 2
        (str "stageA")).1 2 = some (str "stageA")) ∧
    get_state_field (update_state (str "t2")
      (update_state (str "t1") (some (str "started,a,b,c,t0")) 2 (str "stageA")).1 3
      (str "actionA")).1 2 = some (str "stageA") :=
  ⟨⟨by omega, by omega,
      (c7_amended (str "t1") (str "stageA") (some (str "started,a,b,c,t0")) 2
        (by omega) (by omega) (by decide) (by decide) (by decide)).2.1⟩,
    by decide⟩

end FlowCTRL
